import Mathlib

/-!
# Shallow embedding of srt-to-vtt-cl (`Converter.cpp`)

Strings are modelled as lists of natural-number character codes (the source
works on `std::wstring`, i.e. sequences of wide characters).  Pure functions of
the source become Lean functions; the line-processing loop of
`Converter::convertFile` becomes a fold over the list of input lines; the
fallible `stoi` calls return `Option`.  All numeric values flowing into
`msToVttTimeString` are non-negative at every call site (parsed digit strings,
then clamped at zero), so it is embedded at type `Nat`.
-/

/-- `c` is an ASCII decimal digit (`[0-9]`, which is what `\d` matches in the
source's `std::wregex` patterns and what `stoi` consumes). -/
def isDigit (c : Nat) : Bool := decide (48 ≤ c ∧ c ≤ 57)

/-- Value of a list of digit codes read in base 10 (how `stoi` accumulates). -/
def digitsVal (l : List Nat) : Nat := l.foldl (fun a c => a * 10 + (c - 48)) 0

/-- Leading-whitespace skip performed by `stoi` (via `strtol`). -/
def stoiTrim (l : List Nat) : List Nat :=
  l.dropWhile (fun c => decide (c = 32 ∨ c = 9 ∨ c = 10 ∨ c = 11 ∨ c = 12 ∨ c = 13))

/-- Embedding of `std::stoi` on a wide string: skip leading whitespace, accept
an optional sign, then a non-empty run of decimal digits; `none` models the
`std::invalid_argument` exception thrown when no digits are found.  (The
source only ever applies it to all-digit substrings of a regex-matched
timecode token, so the overflow exception of `stoi` cannot arise there.) -/
def stoi (l : List Nat) : Option Int :=
  match stoiTrim l with
  | [] => none
  | c :: rest =>
    if c = 45 then
      match rest.takeWhile isDigit with
      | [] => none
      | ds => some (-(digitsVal ds : Int))
    else if c = 43 then
      match rest.takeWhile isDigit with
      | [] => none
      | ds => some ((digitsVal ds : Int))
    else
      match (c :: rest).takeWhile isDigit with
      | [] => none
      | ds => some ((digitsVal ds : Int))

/-- Embedding of `Converter::timeStringToMs`: fixed-offset substring
extraction, `substr(0,2)`, `substr(3,2)`, `substr(6,2)`, `substr(9)`, each fed
to `stoi`, combined as `h*3600000 + m*60000 + s*1000 + ms`. -/
def timeStringToMs (time : List Nat) : Option Int :=
  match stoi (time.take 2), stoi ((time.drop 3).take 2),
        stoi ((time.drop 6).take 2), stoi (time.drop 9) with
  | some hours, some minutes, some seconds, some milliseconds =>
    some (hours * 3600000 + minutes * 60000 + seconds * 1000 + milliseconds)
  | _, _, _, _ => none

/-- Fuel-indexed decimal rendering; with fuel `> n` this is the decimal digit
string of `n` (the behaviour of `std::to_wstring` on a non-negative value). -/
def digitsGo : Nat → Nat → List Nat
  | _, 0 => []
  | n, fuel + 1 =>
    if n < 10 then [48 + n] else digitsGo (n / 10) fuel ++ [48 + n % 10]

/-- Decimal digit string of `n`, embedding `std::to_wstring` for the
non-negative values the source passes to it. -/
def natToDigits (n : Nat) : List Nat := digitsGo n (n + 1)

/-- Embedding of `Converter::msToVttTimeString`.  The source reuses the `ms`
parameter destructively (`ms -= hours * 3600000; ...`); the successive values
are named `ms1`, `ms2`, `ms3` here.  The source's type is `int`, but every
call site passes a value clamped to be non-negative, so `Nat` is faithful. -/
def msToVttTimeString (ms : Nat) : List Nat :=
  let hours := ms / 3600000
  let ms1 := ms - hours * 3600000
  let minutes := ms1 / 60000
  let ms2 := ms1 - minutes * 60000
  let seconds := ms2 / 1000
  let ms3 := ms2 - seconds * 1000
  (if hours < 10 then [48] else []) ++ natToDigits hours
    ++ 58 :: ((if minutes < 10 then [48] else []) ++ natToDigits minutes)
    ++ 58 :: ((if seconds < 10 then [48] else []) ++ natToDigits seconds)
    ++ 46 :: ((if ms3 < 100 then [48] else []) ++ (if ms3 < 10 then [48] else [])
        ++ natToDigits ms3)

/-- Modelled from the spec: `Utils::wstr_replace` is declared in `Utils.h` but
its implementation is not among the given sources.  Per the spec the
zero-offset path "simply replace[s] the comma separators with periods", so it
is modelled as replacing every occurrence of the (single-character) search
string by the replacement, which is how `convertFile` invokes it
(`wstr_replace(sLine, L",", L".")`). -/
def wstr_replace (l : List Nat) (search repl : Nat) : List Nat :=
  l.map (fun c => if c = search then repl else c)

/-- One step of the scan of `Converter::htmlEncodeUtf8`, fuel-indexed: at
index `i`, a character in the inclusive range `[160, 255]` is replaced in
place by `"&#" + to_wstring(c) + ";"` and the index jumps past the inserted
text (`i += replacement.length() - 1` followed by the loop's `i++`); any other
character is skipped.  Each iteration decreases `s.length - i` by exactly one,
so fuel `s.length` suffices from index `0`. -/
def htmlLoopGo : Nat → List Nat → Nat → List Nat
  | 0, s, _ => s
  | fuel + 1, s, i =>
    if i < s.length then
      if 160 ≤ s.getD i 0 ∧ s.getD i 0 ≤ 255 then
        htmlLoopGo fuel
          (s.take i ++ (38 :: 35 :: (natToDigits (s.getD i 0) ++ [59])) ++ s.drop (i + 1))
          (i + (38 :: 35 :: (natToDigits (s.getD i 0) ++ [59])).length)
      else
        htmlLoopGo fuel s (i + 1)
    else s

/-- Embedding of `Converter::htmlEncodeUtf8`. -/
def htmlEncodeUtf8 (s : List Nat) : List Nat := htmlLoopGo s.length s 0

/-- What the spec's escaping rule does to one character: codepoints in
`[160, 255]` become the decimal numeric character reference `&#<c>;`
(`&` = 38, `#` = 35, `;` = 59); everything else passes through. -/
def htmlEnc1 (c : Nat) : List Nat :=
  if 160 ≤ c ∧ c ≤ 255 then 38 :: 35 :: (natToDigits c ++ [59]) else [c]

/-- A 12-character timecode token matching `\d\d:\d\d:\d\d,\d{3}`
(`:` = 58, `,` = 44). -/
def isTimeToken (t : List Nat) : Bool :=
  match t with
  | [a, b, c, d, e, f, g, h, i, j, k, l] =>
    isDigit a && isDigit b && c == 58 && isDigit d && isDigit e && f == 58 &&
    isDigit g && isDigit h && i == 44 && isDigit j && isDigit k && isDigit l
  | _ => false

/-- The literal separator `" --> "` of a timecode line
(space = 32, `-` = 45, `>` = 62). -/
def timeSep : List Nat := [32, 45, 45, 62, 32]

/-- Whole-line match of the source's
`rgxTimeFrame = (\d\d:\d\d:\d\d,\d{3}) --> (\d\d:\d\d:\d\d,\d{3})` via
`regex_match` (which anchors at both ends): length 29, a timecode token at
positions 0-11, `" --> "` at positions 12-16, a timecode token at 17-28. -/
def isTimeFrame (l : List Nat) : Bool :=
  l.length == 29 && isTimeToken (l.take 12) && ((l.drop 12).take 5 == timeSep)
    && isTimeToken (l.drop 17)

/-- Whole-line match of the source's `rgxDialogNumber = \d+` via
`regex_match`: a non-empty line consisting solely of decimal digits. -/
def isDialogNumber (l : List Nat) : Bool := !l.isEmpty && l.all isDigit

/-- Outcome of processing one input line in `convertFile`'s loop: dialog
number lines are skipped, other lines are emitted transformed, and `err`
models an exception escaping to the `catch` block. -/
inductive LineResult where
  | skip
  | emit (out : List Nat)
  | err
deriving DecidableEq

/-- The non-zero-offset branch of the timecode case of `convertFile`: extract
the two match groups (characters 0-11 and 17-28 of the line), parse each with
`timeStringToMs`, add the offset, clamp each endpoint at zero independently,
and rebuild the line with `msToVttTimeString`.  A `stoi` failure (impossible
for a regex-matched line) yields `none`, modelling the thrown exception. -/
def offsetPathLine (offsetMs : Int) (l : List Nat) : Option (List Nat) :=
  match timeStringToMs (l.take 12), timeStringToMs (l.drop 17) with
  | some msStartTime, some msEndTime =>
    let s1 := msStartTime + offsetMs
    let e1 := msEndTime + offsetMs
    let s2 := if s1 < 0 then 0 else s1
    let e2 := if e1 < 0 then 0 else e1
    some (msToVttTimeString s2.toNat ++ timeSep ++ msToVttTimeString e2.toNat)
  | _, _ => none

/-- Embedding of the body of `convertFile`'s per-line loop: dialog-number
lines are ignored; a line matching the timeframe regex goes through the
offset arithmetic when `_timeOffsetMs != 0` and otherwise has its commas
replaced by periods; every other line is HTML-encoded. -/
def processLine (offsetMs : Int) (l : List Nat) : LineResult :=
  if isDialogNumber l then .skip
  else if isTimeFrame l then
    if offsetMs ≠ 0 then
      match offsetPathLine offsetMs l with
      | some out => .emit out
      | none => .err
    else .emit (wstr_replace l 44 46)
  else .emit (htmlEncodeUtf8 l)

/-- The loop of `convertFile` over the input lines: returns the emitted lines
(in order) and `true`, or the lines emitted before an exception and `false`.
(On an exception the source stops writing and jumps to the `catch` block, so
no further lines are produced.) -/
def convertLines (offsetMs : Int) : List (List Nat) → List (List Nat) × Bool
  | [] => ([], true)
  | l :: ls =>
    match processLine offsetMs l with
    | .skip => convertLines offsetMs ls
    | .emit out => ((out :: (convertLines offsetMs ls).1), (convertLines offsetMs ls).2)
    | .err => ([], false)

/-- The two header lines `WEBVTT` and the blank line that `convertFile` writes
before entering its loop (`outfile << "WEBVTT" << endl << endl`). -/
def webvttHeader : List (List Nat) := [[87, 69, 66, 86, 84, 84], []]

/-- The sequence of lines `convertFile` writes to the output file. -/
def convertFileOutput (offsetMs : Int) (lines : List (List Nat)) : List (List Nat) :=
  webvttHeader ++ (convertLines offsetMs lines).1

/-- The return code of `convertFile` on the given input lines: `1` when an
exception reached the `catch` block, else `0`. -/
def convertFileCode (offsetMs : Int) (lines : List (List Nat)) : Nat :=
  if (convertLines offsetMs lines).2 then 0 else 1

/-- A directory entry as seen through `readdir`: a regular file or symbolic
link (with the lines of its contents, for feeding `convertFile`), a
subdirectory with its own entries, or anything else (`d_type` values the
source's `switch` ignores).  Names are character-code lists. -/
inductive FsEntry where
  | reg (name : List Nat) (content : List (List Nat))
  | lnk (name : List Nat) (content : List (List Nat))
  | dir (name : List Nat) (entries : List FsEntry)
  | other (name : List Nat)

/-- Index of the last `'.'` (code 46) in a name, `none` when absent — the
behaviour of `std::string::find_last_of(".")` with `npos` mapped to `none`. -/
def findLastDot : List Nat → Option Nat
  | [] => none
  | c :: rest =>
    match findLastDot rest with
    | some i => some (i + 1)
    | none => if c = 46 then some 0 else none

/-- The extension the source computes:
`item.substr(item.find_last_of(".") + 1)`.  When the name has no dot,
`find_last_of` returns `npos` (the maximal `size_t`), `npos + 1` wraps to
`0`, and `substr(0)` is the whole name — hence the `none` branch. -/
def extOf (name : List Nat) : List Nat :=
  match findLastDot name with
  | some i => name.drop (i + 1)
  | none => name

/-- The source's extension test: `ext == "srt" || ext == "SRT"`
(`s` = 115, `r` = 114, `t` = 116; `S` = 83, `R` = 82, `T` = 84). -/
def isSrtExt (e : List Nat) : Bool := e == [115, 114, 116] || e == [83, 82, 84]

/-- The name `"."`. -/
def dotName : List Nat := [46]

/-- The name `".."`. -/
def dotDotName : List Nat := [46, 46]

mutual
/-- Contribution of one directory entry to `convertDirectory`'s `nRetCodes`:
regular files and symlinks with extension `srt`/`SRT` contribute the return
code of `convertFile`; with the recursive flag, subdirectories other than
`.` and `..` contribute the (already 0/1-normalised) result of the recursive
`convertDirectory` call; everything else contributes nothing. -/
def entryRet (offsetMs : Int) (recursive : Bool) : FsEntry → Nat
  | .reg name content =>
    if isSrtExt (extOf name) then convertFileCode offsetMs content else 0
  | .lnk name content =>
    if isSrtExt (extOf name) then convertFileCode offsetMs content else 0
  | .dir name entries =>
    if recursive && name != dotName && name != dotDotName then
      if entriesRet offsetMs recursive entries ≠ 0 then 1 else 0
    else 0
  | .other _ => 0

/-- The `nRetCodes` accumulator of `Converter::convertDirectory` over the
entries of one directory. -/
def entriesRet (offsetMs : Int) (recursive : Bool) : List FsEntry → Nat
  | [] => 0
  | e :: es => entryRet offsetMs recursive e + entriesRet offsetMs recursive es
end

/-- Embedding of `Converter::convertDirectory` on a readable directory:
`return nRetCodes ? 1 : 0`. -/
def convertDirectory (offsetMs : Int) (recursive : Bool) (entries : List FsEntry) : Nat :=
  if entriesRet offsetMs recursive entries ≠ 0 then 1 else 0

mutual
/-- The files (given by their contents) on which the walk of one directory
entry calls `convertFile`, in traversal order.  Defined purely from names and
the recursive flag — selection never depends on conversion outcomes. -/
def entryFiles (recursive : Bool) : FsEntry → List (List (List Nat))
  | .reg name content => if isSrtExt (extOf name) then [content] else []
  | .lnk name content => if isSrtExt (extOf name) then [content] else []
  | .dir name entries =>
    if recursive && name != dotName && name != dotDotName then
      entriesFiles recursive entries
    else []
  | .other _ => []

/-- The files selected for conversion across a list of directory entries. -/
def entriesFiles (recursive : Bool) : List FsEntry → List (List (List Nat))
  | [] => []
  | e :: es => entryFiles recursive e ++ entriesFiles recursive es
end

/-- Spec-side renderer: a digit string left-padded with zeros (code 48) to
width `w`. -/
def padZeros (w : Nat) (l : List Nat) : List Nat := List.replicate (w - l.length) 48 ++ l

/-- Spec-side reading of "the substring after the last `'.'`". -/
def afterLastDot (name : List Nat) : List Nat :=
  (name.reverse.takeWhile (fun c => c != 46)).reverse

/-- Whether a name contains a `'.'` at all. -/
def hasDot (name : List Nat) : Bool := name.any (fun c => c == 46)

/-- The claim's selection predicate, read literally: the name's final
extension — the substring after the last `'.'` — is exactly `srt` or `SRT`
(a name without a dot has no extension and is not selected). -/
def specFinalExtIsSrt (name : List Nat) : Bool :=
  hasDot name && isSrtExt (afterLastDot name)

/-! ## Decimal rendering lemmas -/

theorem digitsGo_congr : ∀ (f1 f2 n : Nat), n < f1 → n < f2 → digitsGo n f1 = digitsGo n f2 := by
  intro f1
  induction f1 with
  | zero => intro f2 n h; omega
  | succ f ih =>
    intro f2 n h1 h2
    cases f2 with
    | zero => omega
    | succ f2' =>
      simp only [digitsGo]
      by_cases h10 : n < 10
      · simp [h10]
      · have hd : n / 10 < n := Nat.div_lt_self (by omega) (by omega)
        rw [if_neg h10, if_neg h10, ih f2' (n / 10) (by omega) (by omega)]

theorem digitsGo_succ (m f : Nat) :
    digitsGo m (f + 1) = if m < 10 then [48 + m] else digitsGo (m / 10) f ++ [48 + m % 10] := rfl

theorem natToDigits_eq (n : Nat) :
    natToDigits n = if n < 10 then [48 + n] else natToDigits (n / 10) ++ [48 + n % 10] := by
  by_cases h10 : n < 10
  · rw [natToDigits, digitsGo_succ]
    simp only [if_pos h10]
  · have hd : n / 10 < n := Nat.div_lt_self (by omega) (by omega)
    rw [natToDigits, digitsGo_succ]
    simp only [if_neg h10]
    congr 1
    rw [natToDigits]
    exact digitsGo_congr n (n / 10 + 1) (n / 10) (by omega) (by omega)

theorem natToDigits_lt10 {n : Nat} (h : n < 10) : natToDigits n = [48 + n] := by
  rw [natToDigits_eq, if_pos h]

theorem natToDigits_mem {n c : Nat} (h : c ∈ natToDigits n) : 48 ≤ c ∧ c ≤ 57 := by
  induction n using Nat.strong_induction_on with
  | _ n ih =>
    rw [natToDigits_eq] at h
    by_cases h10 : n < 10
    · rw [if_pos h10] at h
      simp only [List.mem_singleton] at h
      omega
    · rw [if_neg h10] at h
      rcases List.mem_append.1 h with h | h
      · exact ih (n / 10) (Nat.div_lt_self (by omega) (by omega)) h
      · simp only [List.mem_singleton] at h
        have := Nat.mod_lt n (show 0 < 10 by omega)
        omega

theorem natToDigits_ne_nil (n : Nat) : natToDigits n ≠ [] := by
  rw [natToDigits_eq]
  by_cases h10 : n < 10 <;> simp [h10]

theorem natToDigits_length_pos (n : Nat) : 1 ≤ (natToDigits n).length :=
  List.length_pos.2 (natToDigits_ne_nil n)

theorem natToDigits_length_two {n : Nat} (h : 10 ≤ n) : 2 ≤ (natToDigits n).length := by
  rw [natToDigits_eq, if_neg (by omega)]
  have := natToDigits_length_pos (n / 10)
  simp only [List.length_append, List.length_cons, List.length_nil]
  omega

theorem natToDigits_length_three {n : Nat} (h : 100 ≤ n) : 3 ≤ (natToDigits n).length := by
  rw [natToDigits_eq, if_neg (by omega)]
  have : 10 ≤ n / 10 := by omega
  have := natToDigits_length_two this
  simp only [List.length_append, List.length_cons, List.length_nil]
  omega

theorem natToDigits_two {a b : Nat} (ha1 : 1 ≤ a) (ha : a ≤ 9) (hb : b ≤ 9) :
    natToDigits (10 * a + b) = [48 + a, 48 + b] := by
  rw [natToDigits_eq, if_neg (by omega)]
  have h2 : (10 * a + b) / 10 = a := by omega
  have h3 : (10 * a + b) % 10 = b := by omega
  rw [h2, h3, natToDigits_lt10 (by omega)]
  rfl

theorem natToDigits_three {a b c : Nat} (ha1 : 1 ≤ a) (ha : a ≤ 9) (hb : b ≤ 9) (hc : c ≤ 9) :
    natToDigits (100 * a + 10 * b + c) = [48 + a, 48 + b, 48 + c] := by
  rw [natToDigits_eq, if_neg (by omega)]
  have h2 : (100 * a + 10 * b + c) / 10 = 10 * a + b := by omega
  have h3 : (100 * a + 10 * b + c) % 10 = c := by omega
  rw [h2, h3, natToDigits_two ha1 ha hb]
  rfl

theorem pad2_digits {a b : Nat} (ha : a ≤ 9) (hb : b ≤ 9) :
    (if 10 * a + b < 10 then [48] else []) ++ natToDigits (10 * a + b) = [48 + a, 48 + b] := by
  by_cases h : a = 0
  · subst h
    rw [if_pos (by omega)]
    have : (10 * 0 + b) = b := by omega
    rw [this, natToDigits_lt10 (by omega)]
    rfl
  · rw [if_neg (by omega), natToDigits_two (by omega) ha hb]
    rfl

theorem pad3_digits {a b c : Nat} (ha : a ≤ 9) (hb : b ≤ 9) (hc : c ≤ 9) :
    (if 100 * a + 10 * b + c < 100 then [48] else [])
      ++ (if 100 * a + 10 * b + c < 10 then [48] else [])
      ++ natToDigits (100 * a + 10 * b + c) = [48 + a, 48 + b, 48 + c] := by
  by_cases h1 : a = 0
  · subst h1
    by_cases h2 : b = 0
    · subst h2
      rw [if_pos (by omega), if_pos (by omega)]
      have : (100 * 0 + 10 * 0 + c) = c := by omega
      rw [this, natToDigits_lt10 (by omega)]
      rfl
    · rw [if_pos (by omega), if_neg (by omega)]
      have : (100 * 0 + 10 * b + c) = 10 * b + c := by omega
      rw [this, natToDigits_two (by omega) hb hc]
      rfl
  · rw [if_neg (by omega), if_neg (by omega), natToDigits_three (by omega) ha hb hc]
    rfl

/-! ## Parsing lemmas -/

theorem isDigit_add48 {x : Nat} (h : x ≤ 9) : isDigit (48 + x) = true := by
  simp only [isDigit, decide_eq_true_eq]
  omega

theorem stoiTrim_cons {c : Nat} (rest : List Nat) (h : 43 ≤ c) :
    stoiTrim (c :: rest) = c :: rest := by
  simp only [stoiTrim, List.dropWhile_cons]
  have : ¬(c = 32 ∨ c = 9 ∨ c = 10 ∨ c = 11 ∨ c = 12 ∨ c = 13) := by omega
  simp [this]

theorem stoi_two {a b : Nat} (ha : a ≤ 9) (hb : b ≤ 9) :
    stoi [48 + a, 48 + b] = some ((10 * a + b : Nat) : Int) := by
  rw [stoi, stoiTrim_cons _ (by omega)]
  have hA := isDigit_add48 ha
  have hB := isDigit_add48 hb
  simp only [List.takeWhile_cons, hA, hB, if_true, List.takeWhile_nil]
  rw [if_neg (by omega : ¬(48 + a = 45)), if_neg (by omega : ¬(48 + a = 43))]
  have hv : digitsVal [48 + a, 48 + b] = 10 * a + b := by
    simp only [digitsVal, List.foldl]
    omega
  rw [hv]

theorem stoi_three {a b c : Nat} (ha : a ≤ 9) (hb : b ≤ 9) (hc : c ≤ 9) :
    stoi [48 + a, 48 + b, 48 + c] = some ((100 * a + 10 * b + c : Nat) : Int) := by
  rw [stoi, stoiTrim_cons _ (by omega)]
  have hA := isDigit_add48 ha
  have hB := isDigit_add48 hb
  have hC := isDigit_add48 hc
  simp only [List.takeWhile_cons, hA, hB, hC, if_true, List.takeWhile_nil]
  rw [if_neg (by omega : ¬(48 + a = 45)), if_neg (by omega : ¬(48 + a = 43))]
  have hv : digitsVal [48 + a, 48 + b, 48 + c] = 100 * a + 10 * b + c := by
    simp only [digitsVal, List.foldl]
    omega
  rw [hv]

theorem timeStringToMs_digits {h1 h2 m1 m2 s1 s2 d1 d2 d3 : Nat}
    (hh1 : h1 ≤ 9) (hh2 : h2 ≤ 9) (hm1 : m1 ≤ 9) (hm2 : m2 ≤ 9)
    (hs1 : s1 ≤ 9) (hs2 : s2 ≤ 9) (hd1 : d1 ≤ 9) (hd2 : d2 ≤ 9) (hd3 : d3 ≤ 9) :
    timeStringToMs [48 + h1, 48 + h2, 58, 48 + m1, 48 + m2, 58,
        48 + s1, 48 + s2, 44, 48 + d1, 48 + d2, 48 + d3]
      = some (((10 * h1 + h2) * 3600000 + (10 * m1 + m2) * 60000
          + (10 * s1 + s2) * 1000 + (100 * d1 + 10 * d2 + d3) : Nat) : Int) := by
  have t1 : ([48 + h1, 48 + h2, 58, 48 + m1, 48 + m2, 58,
      48 + s1, 48 + s2, 44, 48 + d1, 48 + d2, 48 + d3] : List Nat).take 2
      = [48 + h1, 48 + h2] := rfl
  have t2 : (([48 + h1, 48 + h2, 58, 48 + m1, 48 + m2, 58,
      48 + s1, 48 + s2, 44, 48 + d1, 48 + d2, 48 + d3] : List Nat).drop 3).take 2
      = [48 + m1, 48 + m2] := rfl
  have t3 : (([48 + h1, 48 + h2, 58, 48 + m1, 48 + m2, 58,
      48 + s1, 48 + s2, 44, 48 + d1, 48 + d2, 48 + d3] : List Nat).drop 6).take 2
      = [48 + s1, 48 + s2] := rfl
  have t4 : ([48 + h1, 48 + h2, 58, 48 + m1, 48 + m2, 58,
      48 + s1, 48 + s2, 44, 48 + d1, 48 + d2, 48 + d3] : List Nat).drop 9
      = [48 + d1, 48 + d2, 48 + d3] := rfl
  rw [timeStringToMs, t1, t2, t3, t4, stoi_two hh1 hh2, stoi_two hm1 hm2,
    stoi_two hs1 hs2, stoi_three hd1 hd2 hd3]
  congr 1

/-! ## Formatting decomposition -/

theorem msToVtt_decomp {H M S D : Nat} (hM : M < 60) (hS : S < 60) (hD : D < 1000) :
    msToVttTimeString (H * 3600000 + M * 60000 + S * 1000 + D) =
      ((if H < 10 then [48] else []) ++ natToDigits H)
        ++ 58 :: ((if M < 10 then [48] else []) ++ natToDigits M)
        ++ 58 :: ((if S < 10 then [48] else []) ++ natToDigits S)
        ++ 46 :: ((if D < 100 then [48] else []) ++ (if D < 10 then [48] else [])
            ++ natToDigits D) := by
  have e1 : (H * 3600000 + M * 60000 + S * 1000 + D) / 3600000 = H := by omega
  have e2 : H * 3600000 + M * 60000 + S * 1000 + D - H * 3600000
      = M * 60000 + S * 1000 + D := by omega
  have e3 : (M * 60000 + S * 1000 + D) / 60000 = M := by omega
  have e4 : M * 60000 + S * 1000 + D - M * 60000 = S * 1000 + D := by omega
  have e5 : (S * 1000 + D) / 1000 = S := by omega
  have e6 : S * 1000 + D - S * 1000 = D := by omega
  simp only [msToVttTimeString]
  rw [e1, e2, e3, e4, e5, e6]

/-! ## The scan of htmlEncodeUtf8 is character-wise encoding -/

theorem htmlEnc1_length_pos (c : Nat) : 1 ≤ (htmlEnc1 c).length := by
  rw [htmlEnc1]
  by_cases h : 160 ≤ c ∧ c ≤ 255 <;> simp [h]

theorem htmlLoopGo_spec : ∀ (fuel : Nat) (s : List Nat) (i : Nat), s.length - i ≤ fuel →
    htmlLoopGo fuel s i = s.take i ++ (s.drop i).flatMap htmlEnc1 := by
  intro fuel
  induction fuel with
  | zero =>
    intro s i h
    have hle : s.length ≤ i := by omega
    rw [htmlLoopGo, List.drop_eq_nil_of_le hle, List.take_of_length_le hle]
    simp
  | succ f ih =>
    intro s i h
    rw [htmlLoopGo]
    by_cases hi : i < s.length
    · rw [if_pos hi]
      have hgetD : s.getD i 0 = s.get ⟨i, hi⟩ := List.getD_eq_getElem s 0 hi
      have hdropi : s.drop i = s.get ⟨i, hi⟩ :: s.drop (i + 1) :=
        List.drop_eq_getElem_cons hi
      by_cases hc : 160 ≤ s.getD i 0 ∧ s.getD i 0 ≤ 255
      · rw [if_pos hc]
        have henc : htmlEnc1 (s.get ⟨i, hi⟩) = 38 :: 35 :: (natToDigits (s.getD i 0) ++ [59]) := by
          rw [htmlEnc1, if_pos (hgetD ▸ hc), hgetD]
        have hlenAR : (s.take i ++ (38 :: 35 :: (natToDigits (s.getD i 0) ++ [59]))).length
            = i + (38 :: 35 :: (natToDigits (s.getD i 0) ++ [59])).length := by
          rw [List.length_append, List.length_take]
          omega
        have hassoc : s.take i ++ (38 :: 35 :: (natToDigits (s.getD i 0) ++ [59])) ++ s.drop (i + 1)
            = (s.take i ++ (38 :: 35 :: (natToDigits (s.getD i 0) ++ [59]))) ++ s.drop (i + 1) := by
          rw [List.append_assoc]
        have hmeas : (s.take i ++ (38 :: 35 :: (natToDigits (s.getD i 0) ++ [59])) ++ s.drop (i + 1)).length
            - (i + (38 :: 35 :: (natToDigits (s.getD i 0) ++ [59])).length) ≤ f := by
          simp only [List.length_append, List.length_take, List.length_drop, List.length_cons]
          omega
        rw [ih _ _ hmeas, hassoc, List.take_left' hlenAR, List.drop_left' hlenAR,
          hdropi, List.flatMap_cons, henc, List.append_assoc]
      · rw [if_neg hc]
        have hmeas : s.length - (i + 1) ≤ f := by omega
        have henc : htmlEnc1 (s.get ⟨i, hi⟩) = [s.get ⟨i, hi⟩] := by
          rw [htmlEnc1, if_neg (hgetD ▸ hc)]
        have htk : s.take (i + 1) = s.take i ++ [s.get ⟨i, hi⟩] := by
          rw [List.take_succ]
          congr 1
          rw [List.getElem?_eq_getElem hi]
          rfl
        rw [ih _ _ hmeas, htk, hdropi, List.flatMap_cons, henc, List.append_assoc]
    · rw [if_neg hi]
      have hle : s.length ≤ i := by omega
      rw [List.drop_eq_nil_of_le hle, List.take_of_length_le hle]
      simp

theorem htmlEncodeUtf8_flatMap (s : List Nat) : htmlEncodeUtf8 s = s.flatMap htmlEnc1 := by
  rw [htmlEncodeUtf8, htmlLoopGo_spec s.length s 0 (by omega)]
  simp

theorem htmlEnc1_fixed {c : Nat} (h : ¬(160 ≤ c ∧ c ≤ 255)) : htmlEnc1 c = [c] := by
  rw [htmlEnc1, if_neg h]

theorem htmlEnc1_out_of_range {c x : Nat} (h : x ∈ htmlEnc1 c) : ¬(160 ≤ x ∧ x ≤ 255) := by
  rw [htmlEnc1] at h
  by_cases hc : 160 ≤ c ∧ c ≤ 255
  · rw [if_pos hc] at h
    simp only [List.mem_cons, List.mem_append, List.mem_singleton,
      List.not_mem_nil, or_false] at h
    rcases h with rfl | rfl | h | rfl
    · omega
    · omega
    · have := natToDigits_mem h
      omega
    · omega
  · rw [if_neg hc] at h
    simp only [List.mem_singleton] at h
    subst h
    exact hc

theorem flatMap_htmlEnc1_fixed {l : List Nat} (h : ∀ c ∈ l, htmlEnc1 c = [c]) :
    l.flatMap htmlEnc1 = l := by
  induction l with
  | nil => simp
  | cons a t ih =>
    rw [List.flatMap_cons, h a (by simp), ih (fun c hc => h c (by simp [hc]))]
    rfl

/-! ## Timecode token structure -/

theorem isTimeToken_elim {t : List Nat} (ht : isTimeToken t = true) :
    ∃ a1 a2 b1 b2 c1 c2 e1 e2 e3 : Nat,
      a1 ≤ 9 ∧ a2 ≤ 9 ∧ b1 ≤ 9 ∧ b2 ≤ 9 ∧ c1 ≤ 9 ∧ c2 ≤ 9 ∧ e1 ≤ 9 ∧ e2 ≤ 9 ∧ e3 ≤ 9
      ∧ t = [48 + a1, 48 + a2, 58, 48 + b1, 48 + b2, 58,
             48 + c1, 48 + c2, 44, 48 + e1, 48 + e2, 48 + e3] := by
  rcases t with _ | ⟨a, _ | ⟨b, _ | ⟨c, _ | ⟨d, _ | ⟨e, _ | ⟨f, _ | ⟨g, _ | ⟨h, _ |
    ⟨i, _ | ⟨j, _ | ⟨k, _ | ⟨l, _ | ⟨m, r⟩⟩⟩⟩⟩⟩⟩⟩⟩⟩⟩⟩⟩ <;>
    simp only [isTimeToken, Bool.and_eq_true, beq_iff_eq, Bool.false_eq_true] at ht
  obtain ⟨⟨⟨⟨⟨⟨⟨⟨⟨⟨⟨hA, hB⟩, hC⟩, hD⟩, hE⟩, hF⟩, hG⟩, hH⟩, hI⟩, hJ⟩, hK⟩, hL⟩ := ht
  simp only [isDigit, decide_eq_true_eq] at hA hB hD hE hG hH hJ hK hL
  refine ⟨a - 48, b - 48, d - 48, e - 48, g - 48, h - 48, j - 48, k - 48, l - 48,
    by omega, by omega, by omega, by omega, by omega, by omega, by omega, by omega, by omega, ?_⟩
  simp only [List.cons.injEq, and_true]
  omega

theorem isTimeFrame_parts {l : List Nat} (hl : isTimeFrame l = true) :
    l.length = 29 ∧ isTimeToken (l.take 12) = true ∧ (l.drop 12).take 5 = timeSep
      ∧ isTimeToken (l.drop 17) = true := by
  rw [isTimeFrame] at hl
  simp only [Bool.and_eq_true, beq_iff_eq] at hl
  exact ⟨hl.1.1.1, hl.1.1.2, hl.1.2, hl.2⟩

theorem isTimeFrame_elim {l : List Nat} (hl : isTimeFrame l = true) :
    ∃ a1 a2 b1 b2 c1 c2 e1 e2 e3 f1 f2 g1 g2 i1 i2 k1 k2 k3 : Nat,
      a1 ≤ 9 ∧ a2 ≤ 9 ∧ b1 ≤ 9 ∧ b2 ≤ 9 ∧ c1 ≤ 9 ∧ c2 ≤ 9 ∧ e1 ≤ 9 ∧ e2 ≤ 9 ∧ e3 ≤ 9
      ∧ f1 ≤ 9 ∧ f2 ≤ 9 ∧ g1 ≤ 9 ∧ g2 ≤ 9 ∧ i1 ≤ 9 ∧ i2 ≤ 9 ∧ k1 ≤ 9 ∧ k2 ≤ 9 ∧ k3 ≤ 9
      ∧ l = [48 + a1, 48 + a2, 58, 48 + b1, 48 + b2, 58,
             48 + c1, 48 + c2, 44, 48 + e1, 48 + e2, 48 + e3]
          ++ timeSep
          ++ [48 + f1, 48 + f2, 58, 48 + g1, 48 + g2, 58,
              48 + i1, 48 + i2, 44, 48 + k1, 48 + k2, 48 + k3] := by
  obtain ⟨hL, hT1, hSep, hT2⟩ := isTimeFrame_parts hl
  obtain ⟨a1, a2, b1, b2, c1, c2, e1, e2, e3, ha1, ha2, hb1, hb2, hc1, hc2, he1, he2, he3, hEq1⟩ :=
    isTimeToken_elim hT1
  obtain ⟨f1, f2, g1, g2, i1, i2, k1, k2, k3, hf1, hf2, hg1, hg2, hi1, hi2, hk1, hk2, hk3, hEq2⟩ :=
    isTimeToken_elim hT2
  refine ⟨a1, a2, b1, b2, c1, c2, e1, e2, e3, f1, f2, g1, g2, i1, i2, k1, k2, k3,
    ha1, ha2, hb1, hb2, hc1, hc2, he1, he2, he3, hf1, hf2, hg1, hg2, hi1, hi2, hk1, hk2, hk3, ?_⟩
  have hdd : (l.drop 12).drop 5 = l.drop 17 := by
    rw [List.drop_drop]
  calc l = l.take 12 ++ l.drop 12 := (List.take_append_drop 12 l).symm
    _ = l.take 12 ++ ((l.drop 12).take 5 ++ (l.drop 12).drop 5) := by
        congr 1
        exact (List.take_append_drop 5 (l.drop 12)).symm
    _ = _ := by rw [hEq1, hSep, hdd, hEq2, List.append_assoc]

/-! ## Round trip of one token -/

theorem roundTrip_token {h1 h2 m1 m2 s1 s2 d1 d2 d3 : Nat}
    (hh1 : h1 ≤ 9) (hh2 : h2 ≤ 9) (hm1 : m1 ≤ 9) (hm2 : m2 ≤ 9)
    (hs1 : s1 ≤ 9) (hs2 : s2 ≤ 9) (hd1 : d1 ≤ 9) (hd2 : d2 ≤ 9) (hd3 : d3 ≤ 9)
    (hm : 10 * m1 + m2 ≤ 59) (hs : 10 * s1 + s2 ≤ 59) :
    msToVttTimeString ((10 * h1 + h2) * 3600000 + (10 * m1 + m2) * 60000
        + (10 * s1 + s2) * 1000 + (100 * d1 + 10 * d2 + d3))
      = [48 + h1, 48 + h2, 58, 48 + m1, 48 + m2, 58,
         48 + s1, 48 + s2, 46, 48 + d1, 48 + d2, 48 + d3] := by
  rw [msToVtt_decomp (by omega) (by omega) (by omega), pad2_digits hh1 hh2,
    pad2_digits hm1 hm2, pad2_digits hs1 hs2, pad3_digits hd1 hd2 hd3]
  rfl

/-! ## Directory walk: failure aggregation -/

mutual
theorem entryRet_zero_iff (off : Int) (rec : Bool) (e : FsEntry) :
    entryRet off rec e = 0 ↔ ∀ c ∈ entryFiles rec e, convertFileCode off c = 0 := by
  cases e with
  | reg name content =>
    cases hb : isSrtExt (extOf name) <;> simp [entryRet, entryFiles, hb]
  | lnk name content =>
    cases hb : isSrtExt (extOf name) <;> simp [entryRet, entryFiles, hb]
  | dir name entries =>
    cases hb : (rec && name != dotName && name != dotDotName)
    · simp [entryRet, entryFiles, hb]
    · have ih := entriesRet_zero_iff off rec entries
      simp only [entryRet, entryFiles, hb, if_true]
      constructor
      · intro hz c hc
        by_cases hnz : entriesRet off rec entries ≠ 0
        · rw [if_pos hnz] at hz
          omega
        · exact (ih.1 (by omega)) c hc
      · intro hall
        have hz : entriesRet off rec entries = 0 := ih.2 hall
        simp [hz]
  | other name => simp [entryRet, entryFiles]

theorem entriesRet_zero_iff (off : Int) (rec : Bool) (es : List FsEntry) :
    entriesRet off rec es = 0 ↔ ∀ c ∈ entriesFiles rec es, convertFileCode off c = 0 := by
  cases es with
  | nil => simp [entriesRet, entriesFiles]
  | cons e es2 =>
    have ih1 := entryRet_zero_iff off rec e
    have ih2 := entriesRet_zero_iff off rec es2
    simp only [entriesRet, entriesFiles]
    constructor
    · intro hz c hc
      rcases List.mem_append.1 hc with hc | hc
      · exact ih1.1 (by omega) c hc
      · exact ih2.1 (by omega) c hc
    · intro hall
      have h1 := ih1.2 (fun c hc => hall c (List.mem_append.2 (Or.inl hc)))
      have h2 := ih2.2 (fun c hc => hall c (List.mem_append.2 (Or.inr hc)))
      omega
end

/-! ## Extension extraction vs the spec reading -/

theorem takeWhile_append_stop {p : Nat → Bool} {xs : List Nat} (ys : List Nat)
    (h : ∃ x ∈ xs, p x = false) :
    (xs ++ ys).takeWhile p = xs.takeWhile p := by
  induction xs with
  | nil => simp at h
  | cons a t ih =>
    rcases h with ⟨x, hx, hpx⟩
    simp only [List.cons_append, List.takeWhile_cons]
    cases hpa : p a
    · rfl
    · rcases List.mem_cons.1 hx with rfl | hxt
      · rw [hpa] at hpx
        exact Bool.noConfusion hpx
      · rw [ih ⟨x, hxt, hpx⟩]

theorem hasDot_iff_mem {name : List Nat} : hasDot name = true ↔ 46 ∈ name := by
  simp [hasDot]

theorem findLastDot_none_iff {name : List Nat} : findLastDot name = none ↔ ¬46 ∈ name := by
  induction name with
  | nil => simp [findLastDot]
  | cons c rest ih =>
    simp only [findLastDot]
    cases hfd : findLastDot rest with
    | none =>
      have hrest : ¬46 ∈ rest := ih.1 hfd
      by_cases hc : c = 46
      · subst hc
        simp [hrest]
      · simp [hc, hrest]
        omega
    | some i =>
      have hrest : 46 ∈ rest := by
        by_contra h0
        rw [ih.2 h0] at hfd
        exact Option.noConfusion hfd
      simp [hrest]

theorem findLastDot_some {name : List Nat} {i : Nat} (h : findLastDot name = some i) :
    name.drop (i + 1) = afterLastDot name := by
  induction name generalizing i with
  | nil => simp [findLastDot] at h
  | cons c rest ih =>
    rw [findLastDot] at h
    cases hfd : findLastDot rest with
    | some j =>
      rw [hfd] at h
      simp only [Option.some.injEq] at h
      subst h
      have hrest : 46 ∈ rest := by
        by_contra h0
        rw [findLastDot_none_iff.2 h0] at hfd
        exact Option.noConfusion hfd
      have hAL : afterLastDot (c :: rest) = afterLastDot rest := by
        rw [afterLastDot, afterLastDot]
        congr 1
        rw [List.reverse_cons]
        exact takeWhile_append_stop [c] ⟨46, by simpa using hrest, by simp⟩
      rw [List.drop_succ_cons, hAL]
      exact ih hfd
    | none =>
      rw [hfd] at h
      by_cases hc : c = 46
      · rw [if_pos hc] at h
        simp only [Option.some.injEq] at h
        subst h
        subst hc
        have hrest : ¬46 ∈ rest := findLastDot_none_iff.1 hfd
        rw [List.drop_succ_cons, List.drop_zero, afterLastDot, List.reverse_cons,
          List.takeWhile_append_of_pos (by
            intro x hxm
            have : x ∈ rest := by simpa using hxm
            have hx46 : x ≠ 46 := fun hxx => hrest (hxx ▸ this)
            simp [hx46])]
        simp
      · rw [if_neg hc] at h
        exact absurd h (by simp)

theorem extOf_spec (name : List Nat) :
    extOf name = if hasDot name then afterLastDot name else name := by
  cases hfd : findLastDot name with
  | none =>
    have hmem : ¬46 ∈ name := findLastDot_none_iff.1 hfd
    simp only [extOf, hfd]
    rw [if_neg (fun hh => hmem (hasDot_iff_mem.1 hh))]
  | some i =>
    have hmem : 46 ∈ name := by
      by_contra h0
      rw [findLastDot_none_iff.2 h0] at hfd
      exact Option.noConfusion hfd
    simp only [extOf, hfd]
    rw [findLastDot_some hfd, if_pos (hasDot_iff_mem.2 hmem)]

/-! ## Claim theorems -/

/-- C1: for every valid timecode string `HH:MM:SS,mmm` (two digits per field,
three for milliseconds, minute and second fields below 60), parsing with
`timeStringToMs` and formatting the result with `msToVttTimeString` yields
the same digits with the comma (44) replaced by a period (46); the encoded
time is below 100 hours. -/
theorem c1_parse_format_round_trip (h1 h2 m1 m2 s1 s2 d1 d2 d3 : Nat)
    (hh1 : h1 ≤ 9) (hh2 : h2 ≤ 9) (hm1 : m1 ≤ 9) (hm2 : m2 ≤ 9)
    (hs1 : s1 ≤ 9) (hs2 : s2 ≤ 9) (hd1 : d1 ≤ 9) (hd2 : d2 ≤ 9) (hd3 : d3 ≤ 9)
    (hm : 10 * m1 + m2 ≤ 59) (hs : 10 * s1 + s2 ≤ 59) :
    ∃ t : Int,
      timeStringToMs [48 + h1, 48 + h2, 58, 48 + m1, 48 + m2, 58,
          48 + s1, 48 + s2, 44, 48 + d1, 48 + d2, 48 + d3] = some t
      ∧ 0 ≤ t ∧ t < 100 * 3600000
      ∧ msToVttTimeString t.toNat
          = [48 + h1, 48 + h2, 58, 48 + m1, 48 + m2, 58,
             48 + s1, 48 + s2, 46, 48 + d1, 48 + d2, 48 + d3] := by
  refine ⟨_, timeStringToMs_digits hh1 hh2 hm1 hm2 hs1 hs2 hd1 hd2 hd3,
    Int.natCast_nonneg _, by omega, ?_⟩
  rw [Int.toNat_natCast]
  exact roundTrip_token hh1 hh2 hm1 hm2 hs1 hs2 hd1 hd2 hd3 hm hs

/-- Witness for C1 at the concrete timecode `01:02:03,004`. -/
theorem c1_parse_format_round_trip_witness :
    ∃ t : Int,
      timeStringToMs [48 + 0, 48 + 1, 58, 48 + 0, 48 + 2, 58,
          48 + 0, 48 + 3, 44, 48 + 0, 48 + 0, 48 + 4] = some t
      ∧ 0 ≤ t ∧ t < 100 * 3600000
      ∧ msToVttTimeString t.toNat
          = [48 + 0, 48 + 1, 58, 48 + 0, 48 + 2, 58,
             48 + 0, 48 + 3, 46, 48 + 0, 48 + 0, 48 + 4] :=
  c1_parse_format_round_trip 0 1 0 2 0 3 0 0 4 (by decide) (by decide) (by decide)
    (by decide) (by decide) (by decide) (by decide) (by decide) (by decide)
    (by decide) (by decide)

/-- C5: `htmlEncodeUtf8` is exactly character-wise encoding: every character
with codepoint in the inclusive range `[160, 255]` becomes the decimal
numeric character reference `&#<codepoint>;` and every other character is
left unchanged; in particular 233 becomes `&#233;`, 65 (`A`) and 256 are
unchanged, and `<` (60), `>` (62), `&` (38), `"` (34), apostrophe (39) are
not escaped. -/
theorem c5_html_escaping :
    (∀ l : List Nat, htmlEncodeUtf8 l = l.flatMap htmlEnc1)
    ∧ (∀ c : Nat, 160 ≤ c → c ≤ 255 → htmlEnc1 c = 38 :: 35 :: (natToDigits c ++ [59]))
    ∧ (∀ c : Nat, ¬(160 ≤ c ∧ c ≤ 255) → htmlEnc1 c = [c])
    ∧ htmlEncodeUtf8 [233] = [38, 35, 50, 51, 51, 59]
    ∧ htmlEncodeUtf8 [65] = [65]
    ∧ htmlEncodeUtf8 [256] = [256]
    ∧ htmlEncodeUtf8 [60, 62, 38, 34, 39] = [60, 62, 38, 34, 39] :=
  ⟨htmlEncodeUtf8_flatMap,
   fun c hc1 hc2 => by rw [htmlEnc1, if_pos ⟨hc1, hc2⟩],
   fun c hc => by rw [htmlEnc1, if_neg hc],
   by decide, by decide, by decide, by decide⟩

/-- Witness for C5's conditional conjuncts at the concrete codepoints 233
and 65. -/
theorem c5_html_escaping_witness :
    htmlEnc1 233 = 38 :: 35 :: (natToDigits 233 ++ [59]) ∧ htmlEnc1 65 = [65] :=
  ⟨c5_html_escaping.2.1 233 (by decide) (by decide),
   c5_html_escaping.2.2.1 65 (by decide)⟩

/-- C10: `htmlEncodeUtf8` is idempotent — every character produced by one
pass is either below 160 (the characters of an inserted `&#n;` reference)
or an unchanged character outside `[160, 255]`, so a second pass changes
nothing. -/
theorem c10_htmlEncode_idempotent (l : List Nat) :
    htmlEncodeUtf8 (htmlEncodeUtf8 l) = htmlEncodeUtf8 l := by
  rw [htmlEncodeUtf8_flatMap l, htmlEncodeUtf8_flatMap (l.flatMap htmlEnc1)]
  apply flatMap_htmlEnc1_fixed
  intro c hc
  obtain ⟨a, _, hmem⟩ := List.mem_flatMap.1 hc
  exact htmlEnc1_fixed (htmlEnc1_out_of_range hmem)

/-- C7: for every input, the output of `convertFile` begins with the literal
line `WEBVTT` followed by a blank line, before any transformed input line. -/
theorem c7_webvtt_header (offsetMs : Int) (lines : List (List Nat)) :
    convertFileOutput offsetMs lines
      = [87, 69, 66, 86, 84, 84] :: [] :: (convertLines offsetMs lines).1 := rfl

/-! ## Field widths for C6 -/

theorem natToDigits_length_two_exact {x : Nat} (h1 : 10 ≤ x) (h2 : x < 100) :
    (natToDigits x).length = 2 := by
  rw [natToDigits_eq, if_neg (by omega), natToDigits_lt10 (show x / 10 < 10 by omega)]
  rfl

theorem pad2_eq_padZeros (x : Nat) :
    (if x < 10 then [48] else []) ++ natToDigits x = padZeros 2 (natToDigits x) := by
  by_cases h : x < 10
  · rw [if_pos h, natToDigits_lt10 h]
    rfl
  · rw [if_neg h, padZeros]
    have h2 := natToDigits_length_two (show 10 ≤ x by omega)
    have h0 : 2 - (natToDigits x).length = 0 := by omega
    rw [h0]
    simp

theorem pad3_eq_padZeros (x : Nat) :
    (if x < 100 then [48] else []) ++ (if x < 10 then [48] else []) ++ natToDigits x
      = padZeros 3 (natToDigits x) := by
  by_cases hA : x < 10
  · rw [if_pos (by omega : x < 100), if_pos hA, natToDigits_lt10 hA]
    rfl
  · by_cases hB : x < 100
    · rw [if_pos hB, if_neg hA, padZeros, natToDigits_length_two_exact (by omega) hB]
      rfl
    · rw [if_neg hB, if_neg hA, padZeros]
      have h3 := natToDigits_length_three (show 100 ≤ x by omega)
      have h0 : 3 - (natToDigits x).length = 0 := by omega
      rw [h0]
      simp

theorem padZeros_length (w : Nat) (l : List Nat) :
    (padZeros w l).length = max w l.length := by
  simp only [padZeros, List.length_append, List.length_replicate]
  omega

theorem natToDigits_length_le_two {x : Nat} (h : x < 100) : (natToDigits x).length ≤ 2 := by
  by_cases h1 : x < 10
  · rw [natToDigits_lt10 h1]
    simp
  · have h2 := natToDigits_length_two_exact (show 10 ≤ x by omega) h
    omega

theorem natToDigits_length_le_three {x : Nat} (h : x < 1000) : (natToDigits x).length ≤ 3 := by
  by_cases h1 : x < 100
  · have := natToDigits_length_le_two h1
    omega
  · rw [natToDigits_eq, if_neg (show ¬x < 10 by omega)]
    have := natToDigits_length_le_two (show x / 10 < 100 by omega)
    simp only [List.length_append, List.length_cons, List.length_nil]
    omega

/-- C6: for every non-negative millisecond count, `msToVttTimeString`
decomposes it by integer division and remainder with bases 3600000, 60000
and 1000, renders the four fields zero-padded to widths 2, 2, 2 and 3 joined
as `HH:MM:SS.mmm`; the minute, second and millisecond fields never exceed
their widths, and an hour count of 100 or more is not truncated — its full
digit string appears. -/
theorem c6_format_decomposition (n : Nat) :
    ∃ h m s r : Nat,
      n = h * 3600000 + m * 60000 + s * 1000 + r
      ∧ h = n / 3600000 ∧ m < 60 ∧ s < 60 ∧ r < 1000
      ∧ msToVttTimeString n
          = padZeros 2 (natToDigits h) ++ 58 :: (padZeros 2 (natToDigits m))
            ++ 58 :: (padZeros 2 (natToDigits s)) ++ 46 :: (padZeros 3 (natToDigits r))
      ∧ (padZeros 2 (natToDigits m)).length = 2
      ∧ (padZeros 2 (natToDigits s)).length = 2
      ∧ (padZeros 3 (natToDigits r)).length = 3
      ∧ (100 ≤ h → padZeros 2 (natToDigits h) = natToDigits h) := by
  refine ⟨n / 3600000, n % 3600000 / 60000, n % 3600000 % 60000 / 1000,
    n % 3600000 % 60000 % 1000, by omega, rfl, by omega, by omega, by omega, ?_, ?_, ?_, ?_, ?_⟩
  · have hn : n = (n / 3600000) * 3600000 + (n % 3600000 / 60000) * 60000
        + (n % 3600000 % 60000 / 1000) * 1000 + n % 3600000 % 60000 % 1000 := by omega
    conv_lhs => rw [hn]
    rw [msToVtt_decomp (by omega) (by omega) (by omega), pad2_eq_padZeros,
      pad2_eq_padZeros, pad2_eq_padZeros, pad3_eq_padZeros]
  · rw [padZeros_length]
    have := natToDigits_length_le_two (show n % 3600000 / 60000 < 100 by omega)
    omega
  · rw [padZeros_length]
    have := natToDigits_length_le_two (show n % 3600000 % 60000 / 1000 < 100 by omega)
    omega
  · rw [padZeros_length]
    have := natToDigits_length_le_three (show n % 3600000 % 60000 % 1000 < 1000 by omega)
    omega
  · intro hh
    rw [padZeros]
    have := natToDigits_length_three hh
    have h0 : 2 - (natToDigits (n / 3600000)).length = 0 := by omega
    rw [h0]
    simp

/-- Witness for C6 at the concrete value 360000123 ms (an hour count of 100,
exercising the widening conjunct). -/
theorem c6_format_decomposition_witness :
    ∃ h m s r : Nat,
      360000123 = h * 3600000 + m * 60000 + s * 1000 + r
      ∧ h = 360000123 / 3600000 ∧ m < 60 ∧ s < 60 ∧ r < 1000
      ∧ msToVttTimeString 360000123
          = padZeros 2 (natToDigits h) ++ 58 :: (padZeros 2 (natToDigits m))
            ++ 58 :: (padZeros 2 (natToDigits s)) ++ 46 :: (padZeros 3 (natToDigits r))
      ∧ (padZeros 2 (natToDigits m)).length = 2
      ∧ (padZeros 2 (natToDigits s)).length = 2
      ∧ (padZeros 3 (natToDigits r)).length = 3
      ∧ (100 ≤ h → padZeros 2 (natToDigits h) = natToDigits h) :=
  c6_format_decomposition 360000123

/-- C2: converting a timecode line with a non-zero offset computes
`start_ms + offsetMs` and `end_ms + offsetMs`, each independently clamped
below at zero.  In particular `00:00:00,500 --> 00:00:02,000` offset by
`-1000` ms yields `00:00:00.000 --> 00:00:01.000` (the start clamped to
zero), and on `00:00:05,000 --> 00:00:00,500` the same offset floors only
the end, leaving the emitted start (4000 ms) above the emitted end (0 ms),
uncorrected. -/
theorem c2_offset_clamped :
    (∀ (off : Int) (l : List Nat), off ≠ 0 → isTimeFrame l = true →
      ∃ s e : Nat, timeStringToMs (l.take 12) = some ((s : Nat) : Int)
        ∧ timeStringToMs (l.drop 17) = some ((e : Nat) : Int)
        ∧ processLine off l = LineResult.emit
            (msToVttTimeString (if (s : Int) + off < 0 then 0 else (s : Int) + off).toNat
              ++ timeSep
              ++ msToVttTimeString (if (e : Int) + off < 0 then 0 else (e : Int) + off).toNat))
    ∧ processLine (-1000)
        ([48, 48, 58, 48, 48, 58, 48, 48, 44, 53, 48, 48] ++ timeSep
          ++ [48, 48, 58, 48, 48, 58, 48, 50, 44, 48, 48, 48])
        = LineResult.emit
            ([48, 48, 58, 48, 48, 58, 48, 48, 46, 48, 48, 48] ++ timeSep
              ++ [48, 48, 58, 48, 48, 58, 48, 49, 46, 48, 48, 48])
    ∧ processLine (-1000)
        ([48, 48, 58, 48, 48, 58, 48, 53, 44, 48, 48, 48] ++ timeSep
          ++ [48, 48, 58, 48, 48, 58, 48, 48, 44, 53, 48, 48])
        = LineResult.emit
            ([48, 48, 58, 48, 48, 58, 48, 52, 46, 48, 48, 48] ++ timeSep
              ++ [48, 48, 58, 48, 48, 58, 48, 48, 46, 48, 48, 48]) := by
  refine ⟨?_, by decide, by decide⟩
  intro off l hoff hl
  obtain ⟨a1, a2, b1, b2, c1, c2, e1, e2, e3, f1, f2, g1, g2, i1, i2, k1, k2, k3,
    ha1, ha2, hb1, hb2, hc1, hc2, he1, he2, he3,
    hf1, hf2, hg1, hg2, hi1, hi2, hk1, hk2, hk3, hEq⟩ := isTimeFrame_elim hl
  have ht1 : l.take 12 = [48 + a1, 48 + a2, 58, 48 + b1, 48 + b2, 58,
      48 + c1, 48 + c2, 44, 48 + e1, 48 + e2, 48 + e3] := by
    rw [hEq]
    rfl
  have ht2 : l.drop 17 = [48 + f1, 48 + f2, 58, 48 + g1, 48 + g2, 58,
      48 + i1, 48 + i2, 44, 48 + k1, 48 + k2, 48 + k3] := by
    rw [hEq]
    rfl
  have hp1 := timeStringToMs_digits ha1 ha2 hb1 hb2 hc1 hc2 he1 he2 he3
  have hp2 := timeStringToMs_digits hf1 hf2 hg1 hg2 hi1 hi2 hk1 hk2 hk3
  have hdn : isDialogNumber l = false := by
    rw [hEq]
    simp [isDialogNumber, isDigit, timeSep]
  refine ⟨_, _, by rw [ht1]; exact hp1, by rw [ht2]; exact hp2, ?_⟩
  rw [processLine, if_neg (by simp [hdn]), if_pos hl, if_pos hoff, offsetPathLine,
    ht1, ht2, hp1, hp2]

/-- Witness for C2's general conjunct at offset `-1000` on the line
`00:00:00,500 --> 00:00:02,000`. -/
theorem c2_offset_clamped_witness :
    ∃ s e : Nat,
      timeStringToMs (([48, 48, 58, 48, 48, 58, 48, 48, 44, 53, 48, 48] ++ timeSep
          ++ [48, 48, 58, 48, 48, 58, 48, 50, 44, 48, 48, 48]).take 12)
        = some ((s : Nat) : Int)
      ∧ timeStringToMs (([48, 48, 58, 48, 48, 58, 48, 48, 44, 53, 48, 48] ++ timeSep
          ++ [48, 48, 58, 48, 48, 58, 48, 50, 44, 48, 48, 48]).drop 17)
        = some ((e : Nat) : Int)
      ∧ processLine (-1000)
          ([48, 48, 58, 48, 48, 58, 48, 48, 44, 53, 48, 48] ++ timeSep
            ++ [48, 48, 58, 48, 48, 58, 48, 50, 44, 48, 48, 48])
          = LineResult.emit
              (msToVttTimeString
                  (if (s : Int) + (-1000) < 0 then 0 else (s : Int) + (-1000)).toNat
                ++ timeSep
                ++ msToVttTimeString
                  (if (e : Int) + (-1000) < 0 then 0 else (e : Int) + (-1000)).toNat) :=
  c2_offset_clamped.1 (-1000) _ (by decide) (by decide)

/-- C4 counterexample: the timecode line `00:00:00,000 --> 00:00:01,000`
starts with digits and contains other characters, and it is indeed not
discarded — but it is not passed through the dialogue/HTML-escaping path:
with offset 1 the emitted line is the re-formatted timecode, which differs
from the HTML-escaped line (the latter is the line unchanged, as it is all
ASCII). -/
theorem c4_counterexample :
    isDigit (([48, 48, 58, 48, 48, 58, 48, 48, 44, 48, 48, 48] ++ timeSep
        ++ [48, 48, 58, 48, 48, 58, 48, 49, 44, 48, 48, 48]).headD 0) = true
    ∧ ([48, 48, 58, 48, 48, 58, 48, 48, 44, 48, 48, 48] ++ timeSep
        ++ [48, 48, 58, 48, 48, 58, 48, 49, 44, 48, 48, 48]).all isDigit = false
    ∧ processLine 1 ([48, 48, 58, 48, 48, 58, 48, 48, 44, 48, 48, 48] ++ timeSep
        ++ [48, 48, 58, 48, 48, 58, 48, 49, 44, 48, 48, 48]) ≠ LineResult.skip
    ∧ processLine 1 ([48, 48, 58, 48, 48, 58, 48, 48, 44, 48, 48, 48] ++ timeSep
        ++ [48, 48, 58, 48, 48, 58, 48, 49, 44, 48, 48, 48])
      ≠ LineResult.emit (htmlEncodeUtf8 ([48, 48, 58, 48, 48, 58, 48, 48, 44, 48, 48, 48]
          ++ timeSep ++ [48, 48, 58, 48, 48, 58, 48, 49, 44, 48, 48, 48])) := by
  decide

/-- C4 amended: index-line classification uses whole-line match semantics —
a non-empty all-digit line is discarded and emitted to no output, a line
containing any non-digit character is never discarded, and such a line is
passed through the dialogue/HTML-escaping path and emitted provided it also
does not match the timecode pattern; `"42"` is discarded and
`"42 dialogue"` is HTML-escaped and emitted, at every offset. -/
theorem c4_index_classification :
    (∀ (off : Int) (l : List Nat), l ≠ [] → l.all isDigit = true →
      processLine off l = LineResult.skip)
    ∧ (∀ (off : Int) (l : List Nat) (c : Nat), c ∈ l → isDigit c = false →
      processLine off l ≠ LineResult.skip)
    ∧ (∀ (off : Int) (l : List Nat) (c : Nat), c ∈ l → isDigit c = false →
      isTimeFrame l = false → processLine off l = LineResult.emit (htmlEncodeUtf8 l))
    ∧ (∀ off : Int, processLine off [52, 50] = LineResult.skip)
    ∧ (∀ off : Int,
        processLine off [52, 50, 32, 100, 105, 97, 108, 111, 103, 117, 101]
          = LineResult.emit
              (htmlEncodeUtf8 [52, 50, 32, 100, 105, 97, 108, 111, 103, 117, 101])) := by
  have hndn : ∀ (l : List Nat) (c : Nat), c ∈ l → isDigit c = false →
      isDialogNumber l = false := by
    intro l c hc hdc
    have hall : l.all isDigit = false := by
      rcases hb : l.all isDigit with _ | _
      · rfl
      · have := List.all_eq_true.1 hb c hc
        rw [hdc] at this
        exact Bool.noConfusion this
    rw [isDialogNumber, hall]
    simp
  refine ⟨?_, ?_, ?_, ?_, ?_⟩
  · intro off l hne hall
    have hdn : isDialogNumber l = true := by
      rw [isDialogNumber, hall]
      simp [hne]
    rw [processLine, if_pos hdn]
  · intro off l c hc hdc
    have hdn := hndn l c hc hdc
    rw [processLine, if_neg (by simp [hdn])]
    by_cases ht : isTimeFrame l = true
    · rw [if_pos ht]
      by_cases hoff : (0 : Int) ≠ 0
      · omega
      · by_cases hoz : off ≠ 0
        · rw [if_pos hoz]
          cases hop : offsetPathLine off l <;> simp
        · rw [if_neg hoz]
          simp
    · rw [if_neg ht]
      simp
  · intro off l c hc hdc ht
    have hdn := hndn l c hc hdc
    rw [processLine, if_neg (by simp [hdn]), if_neg (by simp [ht])]
  · intro off
    have hdn : isDialogNumber [52, 50] = true := by decide
    rw [processLine, if_pos hdn]
  · intro off
    have hdn : isDialogNumber [52, 50, 32, 100, 105, 97, 108, 111, 103, 117, 101] = false := by
      decide
    have ht : isTimeFrame [52, 50, 32, 100, 105, 97, 108, 111, 103, 117, 101] = false := by
      decide
    rw [processLine, if_neg (by simp [hdn]), if_neg (by simp [ht])]

/-- Witness for C4's amended theorem: `"7"` is discarded and `"7a"`
(97 = `a`) is HTML-escaped and emitted, at offset 3. -/
theorem c4_index_classification_witness :
    processLine 3 [55] = LineResult.skip
    ∧ processLine 3 [55, 97] = LineResult.emit (htmlEncodeUtf8 [55, 97]) :=
  ⟨c4_index_classification.1 3 [55] (by decide) (by decide),
   c4_index_classification.2.2.1 3 [55, 97] 97 (by decide) (by decide) (by decide)⟩

/-- C3 counterexample: the line `00:99:00,000 --> 00:99:00,000` matches the
timecode pattern (the regex places no upper bound on the minute field), but
the zero-offset fast path gives `00:99:00.000 --> 00:99:00.000` while the
general path evaluated with offset 0 renormalises 99 minutes to
`01:39:00.000 --> 01:39:00.000` — the outputs are not byte-identical. -/
theorem c3_counterexample :
    isTimeFrame ([48, 48, 58, 57, 57, 58, 48, 48, 44, 48, 48, 48] ++ timeSep
      ++ [48, 48, 58, 57, 57, 58, 48, 48, 44, 48, 48, 48]) = true
    ∧ offsetPathLine 0 ([48, 48, 58, 57, 57, 58, 48, 48, 44, 48, 48, 48] ++ timeSep
        ++ [48, 48, 58, 57, 57, 58, 48, 48, 44, 48, 48, 48])
      ≠ some (wstr_replace ([48, 48, 58, 57, 57, 58, 48, 48, 44, 48, 48, 48] ++ timeSep
          ++ [48, 48, 58, 57, 57, 58, 48, 48, 44, 48, 48, 48]) 44 46) := by
  decide

theorem if_comma_digit {x : Nat} (h : x ≤ 9) :
    (if 48 + x = 44 then 46 else 48 + x) = 48 + x := if_neg (by omega)

theorem isTimeToken_digits {a1 a2 b1 b2 c1 c2 e1 e2 e3 : Nat}
    (ha1 : a1 ≤ 9) (ha2 : a2 ≤ 9) (hb1 : b1 ≤ 9) (hb2 : b2 ≤ 9) (hc1 : c1 ≤ 9)
    (hc2 : c2 ≤ 9) (he1 : e1 ≤ 9) (he2 : e2 ≤ 9) (he3 : e3 ≤ 9) :
    isTimeToken [48 + a1, 48 + a2, 58, 48 + b1, 48 + b2, 58,
        48 + c1, 48 + c2, 44, 48 + e1, 48 + e2, 48 + e3] = true := by
  simp only [isTimeToken]
  rw [isDigit_add48 ha1, isDigit_add48 ha2, isDigit_add48 hb1, isDigit_add48 hb2,
    isDigit_add48 hc1, isDigit_add48 hc2, isDigit_add48 he1, isDigit_add48 he2,
    isDigit_add48 he3]
  rfl

theorem isTimeFrame_digits {a1 a2 b1 b2 c1 c2 e1 e2 e3 f1 f2 g1 g2 i1 i2 k1 k2 k3 : Nat}
    (ha1 : a1 ≤ 9) (ha2 : a2 ≤ 9) (hb1 : b1 ≤ 9) (hb2 : b2 ≤ 9) (hc1 : c1 ≤ 9)
    (hc2 : c2 ≤ 9) (he1 : e1 ≤ 9) (he2 : e2 ≤ 9) (he3 : e3 ≤ 9)
    (hf1 : f1 ≤ 9) (hf2 : f2 ≤ 9) (hg1 : g1 ≤ 9) (hg2 : g2 ≤ 9) (hi1 : i1 ≤ 9)
    (hi2 : i2 ≤ 9) (hk1 : k1 ≤ 9) (hk2 : k2 ≤ 9) (hk3 : k3 ≤ 9) :
    isTimeFrame ([48 + a1, 48 + a2, 58, 48 + b1, 48 + b2, 58,
        48 + c1, 48 + c2, 44, 48 + e1, 48 + e2, 48 + e3]
      ++ timeSep
      ++ [48 + f1, 48 + f2, 58, 48 + g1, 48 + g2, 58,
          48 + i1, 48 + i2, 44, 48 + k1, 48 + k2, 48 + k3]) = true := by
  have q1 : ([48 + a1, 48 + a2, 58, 48 + b1, 48 + b2, 58,
        48 + c1, 48 + c2, 44, 48 + e1, 48 + e2, 48 + e3]
      ++ timeSep
      ++ [48 + f1, 48 + f2, 58, 48 + g1, 48 + g2, 58,
          48 + i1, 48 + i2, 44, 48 + k1, 48 + k2, 48 + k3]).take 12
      = [48 + a1, 48 + a2, 58, 48 + b1, 48 + b2, 58,
         48 + c1, 48 + c2, 44, 48 + e1, 48 + e2, 48 + e3] := rfl
  have q2 : (([48 + a1, 48 + a2, 58, 48 + b1, 48 + b2, 58,
        48 + c1, 48 + c2, 44, 48 + e1, 48 + e2, 48 + e3]
      ++ timeSep
      ++ [48 + f1, 48 + f2, 58, 48 + g1, 48 + g2, 58,
          48 + i1, 48 + i2, 44, 48 + k1, 48 + k2, 48 + k3]).drop 12).take 5 = timeSep := rfl
  have q3 : ([48 + a1, 48 + a2, 58, 48 + b1, 48 + b2, 58,
        48 + c1, 48 + c2, 44, 48 + e1, 48 + e2, 48 + e3]
      ++ timeSep
      ++ [48 + f1, 48 + f2, 58, 48 + g1, 48 + g2, 58,
          48 + i1, 48 + i2, 44, 48 + k1, 48 + k2, 48 + k3]).drop 17
      = [48 + f1, 48 + f2, 58, 48 + g1, 48 + g2, 58,
         48 + i1, 48 + i2, 44, 48 + k1, 48 + k2, 48 + k3] := rfl
  rw [isTimeFrame, q1, q2, q3,
    isTimeToken_digits ha1 ha2 hb1 hb2 hc1 hc2 he1 he2 he3,
    isTimeToken_digits hf1 hf2 hg1 hg2 hi1 hi2 hk1 hk2 hk3]
  rfl

theorem clamp0_toNat (n : Nat) :
    (if ((n : Nat) : Int) + 0 < 0 then 0 else ((n : Nat) : Int) + 0).toNat = n := by
  rw [if_neg (show ¬(((n : Nat) : Int) + 0 < 0) by omega)]
  omega

theorem wstr_replace_timecode_line
    {a1 a2 b1 b2 c1 c2 e1 e2 e3 f1 f2 g1 g2 i1 i2 k1 k2 k3 : Nat}
    (ha1 : a1 ≤ 9) (ha2 : a2 ≤ 9) (hb1 : b1 ≤ 9) (hb2 : b2 ≤ 9) (hc1 : c1 ≤ 9)
    (hc2 : c2 ≤ 9) (he1 : e1 ≤ 9) (he2 : e2 ≤ 9) (he3 : e3 ≤ 9)
    (hf1 : f1 ≤ 9) (hf2 : f2 ≤ 9) (hg1 : g1 ≤ 9) (hg2 : g2 ≤ 9) (hi1 : i1 ≤ 9)
    (hi2 : i2 ≤ 9) (hk1 : k1 ≤ 9) (hk2 : k2 ≤ 9) (hk3 : k3 ≤ 9) :
    wstr_replace ([48 + a1, 48 + a2, 58, 48 + b1, 48 + b2, 58,
        48 + c1, 48 + c2, 44, 48 + e1, 48 + e2, 48 + e3]
      ++ timeSep
      ++ [48 + f1, 48 + f2, 58, 48 + g1, 48 + g2, 58,
          48 + i1, 48 + i2, 44, 48 + k1, 48 + k2, 48 + k3]) 44 46
      = [48 + a1, 48 + a2, 58, 48 + b1, 48 + b2, 58,
         48 + c1, 48 + c2, 46, 48 + e1, 48 + e2, 48 + e3]
        ++ timeSep
        ++ [48 + f1, 48 + f2, 58, 48 + g1, 48 + g2, 58,
            48 + i1, 48 + i2, 46, 48 + k1, 48 + k2, 48 + k3] := by
  simp only [wstr_replace, timeSep, List.cons_append, List.nil_append,
    List.map_cons, List.map_nil, if_comma_digit ha1, if_comma_digit ha2,
    if_comma_digit hb1, if_comma_digit hb2, if_comma_digit hc1, if_comma_digit hc2,
    if_comma_digit he1, if_comma_digit he2, if_comma_digit he3,
    if_comma_digit hf1, if_comma_digit hf2, if_comma_digit hg1, if_comma_digit hg2,
    if_comma_digit hi1, if_comma_digit hi2, if_comma_digit hk1, if_comma_digit hk2,
    if_comma_digit hk3]
  norm_num

/-- C3 amended: for a line matching the timecode pattern whose minute and
second fields are below 60, the zero-offset fast path (replacing commas by
periods) is byte-identical to the general offset path evaluated with offset
0, and the zero-offset branch of `processLine` emits exactly that string.
(Without the field bounds the claim fails: see the counterexample with a
minute field of 99.) -/
theorem c3_fast_path_equiv
    (a1 a2 b1 b2 c1 c2 e1 e2 e3 f1 f2 g1 g2 i1 i2 k1 k2 k3 : Nat) (l : List Nat)
    (ha1 : a1 ≤ 9) (ha2 : a2 ≤ 9) (hb1 : b1 ≤ 9) (hb2 : b2 ≤ 9) (hc1 : c1 ≤ 9)
    (hc2 : c2 ≤ 9) (he1 : e1 ≤ 9) (he2 : e2 ≤ 9) (he3 : e3 ≤ 9)
    (hf1 : f1 ≤ 9) (hf2 : f2 ≤ 9) (hg1 : g1 ≤ 9) (hg2 : g2 ≤ 9) (hi1 : i1 ≤ 9)
    (hi2 : i2 ≤ 9) (hk1 : k1 ≤ 9) (hk2 : k2 ≤ 9) (hk3 : k3 ≤ 9)
    (hbm : 10 * b1 + b2 ≤ 59) (hcs : 10 * c1 + c2 ≤ 59)
    (hgm : 10 * g1 + g2 ≤ 59) (his : 10 * i1 + i2 ≤ 59)
    (hl : l = [48 + a1, 48 + a2, 58, 48 + b1, 48 + b2, 58,
        48 + c1, 48 + c2, 44, 48 + e1, 48 + e2, 48 + e3]
      ++ timeSep
      ++ [48 + f1, 48 + f2, 58, 48 + g1, 48 + g2, 58,
          48 + i1, 48 + i2, 44, 48 + k1, 48 + k2, 48 + k3]) :
    offsetPathLine 0 l = some (wstr_replace l 44 46)
    ∧ processLine 0 l = LineResult.emit (wstr_replace l 44 46) := by
  subst hl
  have ht1 : ([48 + a1, 48 + a2, 58, 48 + b1, 48 + b2, 58,
      48 + c1, 48 + c2, 44, 48 + e1, 48 + e2, 48 + e3]
    ++ timeSep
    ++ [48 + f1, 48 + f2, 58, 48 + g1, 48 + g2, 58,
        48 + i1, 48 + i2, 44, 48 + k1, 48 + k2, 48 + k3]).take 12
    = [48 + a1, 48 + a2, 58, 48 + b1, 48 + b2, 58,
       48 + c1, 48 + c2, 44, 48 + e1, 48 + e2, 48 + e3] := rfl
  have ht2 : ([48 + a1, 48 + a2, 58, 48 + b1, 48 + b2, 58,
      48 + c1, 48 + c2, 44, 48 + e1, 48 + e2, 48 + e3]
    ++ timeSep
    ++ [48 + f1, 48 + f2, 58, 48 + g1, 48 + g2, 58,
        48 + i1, 48 + i2, 44, 48 + k1, 48 + k2, 48 + k3]).drop 17
    = [48 + f1, 48 + f2, 58, 48 + g1, 48 + g2, 58,
       48 + i1, 48 + i2, 44, 48 + k1, 48 + k2, 48 + k3] := rfl
  have hp1 := timeStringToMs_digits ha1 ha2 hb1 hb2 hc1 hc2 he1 he2 he3
  have hp2 := timeStringToMs_digits hf1 hf2 hg1 hg2 hi1 hi2 hk1 hk2 hk3
  constructor
  · rw [offsetPathLine, ht1, ht2, hp1, hp2]
    simp only [clamp0_toNat]
    rw [roundTrip_token ha1 ha2 hb1 hb2 hc1 hc2 he1 he2 he3 hbm hcs,
      roundTrip_token hf1 hf2 hg1 hg2 hi1 hi2 hk1 hk2 hk3 hgm his,
      wstr_replace_timecode_line ha1 ha2 hb1 hb2 hc1 hc2 he1 he2 he3
        hf1 hf2 hg1 hg2 hi1 hi2 hk1 hk2 hk3]
  · rw [processLine, if_neg (by simp [isDialogNumber, isDigit, timeSep]),
      if_pos (isTimeFrame_digits ha1 ha2 hb1 hb2 hc1 hc2 he1 he2 he3
        hf1 hf2 hg1 hg2 hi1 hi2 hk1 hk2 hk3),
      if_neg (show ¬((0 : Int) ≠ 0) by omega)]

/-- Witness for C3's amended theorem on the line
`01:02:03,004 --> 05:06:07,008`. -/
theorem c3_fast_path_equiv_witness :
    offsetPathLine 0 ([48 + 0, 48 + 1, 58, 48 + 0, 48 + 2, 58,
        48 + 0, 48 + 3, 44, 48 + 0, 48 + 0, 48 + 4]
      ++ timeSep
      ++ [48 + 0, 48 + 5, 58, 48 + 0, 48 + 6, 58,
          48 + 0, 48 + 7, 44, 48 + 0, 48 + 0, 48 + 8])
      = some (wstr_replace ([48 + 0, 48 + 1, 58, 48 + 0, 48 + 2, 58,
          48 + 0, 48 + 3, 44, 48 + 0, 48 + 0, 48 + 4]
        ++ timeSep
        ++ [48 + 0, 48 + 5, 58, 48 + 0, 48 + 6, 58,
            48 + 0, 48 + 7, 44, 48 + 0, 48 + 0, 48 + 8]) 44 46)
    ∧ processLine 0 ([48 + 0, 48 + 1, 58, 48 + 0, 48 + 2, 58,
        48 + 0, 48 + 3, 44, 48 + 0, 48 + 0, 48 + 4]
      ++ timeSep
      ++ [48 + 0, 48 + 5, 58, 48 + 0, 48 + 6, 58,
          48 + 0, 48 + 7, 44, 48 + 0, 48 + 0, 48 + 8])
      = LineResult.emit (wstr_replace ([48 + 0, 48 + 1, 58, 48 + 0, 48 + 2, 58,
          48 + 0, 48 + 3, 44, 48 + 0, 48 + 0, 48 + 4]
        ++ timeSep
        ++ [48 + 0, 48 + 5, 58, 48 + 0, 48 + 6, 58,
            48 + 0, 48 + 7, 44, 48 + 0, 48 + 0, 48 + 8]) 44 46) :=
  c3_fast_path_equiv 0 1 0 2 0 3 0 0 4 0 5 0 6 0 7 0 0 8 _
    (by decide) (by decide) (by decide) (by decide) (by decide) (by decide)
    (by decide) (by decide) (by decide) (by decide) (by decide) (by decide)
    (by decide) (by decide) (by decide) (by decide) (by decide) (by decide)
    (by decide) (by decide) (by decide) (by decide) rfl

/-- C8 counterexample: a regular file literally named `srt` (codes
[115, 114, 116]) has no `'.'`, hence no final extension — the claim's
selection predicate rejects it — yet the walk selects it for conversion,
because `find_last_of(".")` returns `npos`, `npos + 1` wraps to 0, and
`substr(0)` is the whole name. -/
theorem c8_counterexample :
    isSrtExt (extOf [115, 114, 116]) = true
    ∧ specFinalExtIsSrt [115, 114, 116] = false
    ∧ entryFiles true (FsEntry.reg [115, 114, 116] []) = [[]] := by
  refine ⟨by decide, by decide, ?_⟩
  simp [entryFiles, show isSrtExt (extOf [115, 114, 116]) = true from by decide]

/-- C8 amended: the walk selects exactly the regular files and symbolic
links whose name's final extension — where a name containing no `'.'`
counts as its own extension, because `find_last_of` returns `npos` and
`npos + 1` wraps to index 0 — is exactly `srt` or `SRT` (case-sensitive);
`a.srt` and `a.SRT` are selected, `.Srt` and `.txt` are not; with the
recursive flag the walk descends into subdirectories other than `.` and
`..` and never descends otherwise. -/
theorem c8_selection :
    (∀ name : List Nat, extOf name = if hasDot name then afterLastDot name else name)
    ∧ (∀ (b : Bool) (name : List Nat) (content : List (List Nat)),
        entryFiles b (FsEntry.reg name content)
          = (if isSrtExt (if hasDot name then afterLastDot name else name)
              then [content] else [])
        ∧ entryFiles b (FsEntry.lnk name content)
          = (if isSrtExt (if hasDot name then afterLastDot name else name)
              then [content] else []))
    ∧ (∀ (name : List Nat) (sub : List FsEntry), name ≠ dotName → name ≠ dotDotName →
        entryFiles true (FsEntry.dir name sub) = entriesFiles true sub)
    ∧ (∀ (name : List Nat) (sub : List FsEntry), entryFiles false (FsEntry.dir name sub) = [])
    ∧ (∀ sub : List FsEntry, entryFiles true (FsEntry.dir dotName sub) = []
        ∧ entryFiles true (FsEntry.dir dotDotName sub) = [])
    ∧ entryFiles true (FsEntry.reg [97, 46, 115, 114, 116] [[]]) = [[[]]]
    ∧ entryFiles true (FsEntry.reg [97, 46, 83, 82, 84] [[]]) = [[[]]]
    ∧ entryFiles true (FsEntry.reg [46, 83, 114, 116] [[]]) = []
    ∧ entryFiles true (FsEntry.reg [97, 46, 116, 120, 116] [[]]) = [] := by
  refine ⟨extOf_spec, ?_, ?_, ?_, ?_, ?_, ?_, ?_, ?_⟩
  · intro b name content
    constructor <;> simp only [entryFiles, extOf_spec]
  · intro name sub h1 h2
    simp only [entryFiles]
    rw [if_pos (by simp [h1, h2])]
  · intro name sub
    simp [entryFiles]
  · intro sub
    constructor <;> simp [entryFiles]
  · simp [entryFiles, show isSrtExt (extOf [97, 46, 115, 114, 116]) = true from by decide]
  · simp [entryFiles, show isSrtExt (extOf [97, 46, 83, 82, 84]) = true from by decide]
  · simp [entryFiles, show isSrtExt (extOf [46, 83, 114, 116]) = false from by decide]
  · simp [entryFiles, show isSrtExt (extOf [97, 46, 116, 120, 116]) = false from by decide]

/-- Witness for C8's amended theorem: the walk descends into a directory
named `a` (code [97]). -/
theorem c8_selection_witness :
    entryFiles true (FsEntry.dir [97] []) = entriesFiles true ([] : List FsEntry) :=
  c8_selection.2.2.1 [97] [] (by decide) (by decide)

/-- C9: `convertFile` returns nonzero exactly when the conversion of that
file aborts with an error, and `convertDirectory` — which attempts every
selected file independently of earlier failures — returns 1 exactly when at
least one selected file (including those found recursively) fails, and 0
otherwise. -/
theorem c9_error_aggregation :
    (∀ (off : Int) (lines : List (List Nat)),
      convertFileCode off lines ≠ 0 ↔ (convertLines off lines).2 = false)
    ∧ (∀ (off : Int) (recursive : Bool) (es : List FsEntry),
      convertDirectory off recursive es
        = if (entriesFiles recursive es).any (fun c => convertFileCode off c != 0)
          then 1 else 0) := by
  constructor
  · intro off lines
    rw [convertFileCode]
    cases h : (convertLines off lines).2 <;> simp [h]
  · intro off recursive es
    rw [convertDirectory]
    by_cases hz : entriesRet off recursive es = 0
    · rw [if_neg (by omega)]
      have hall := (entriesRet_zero_iff off recursive es).1 hz
      have hany : (entriesFiles recursive es).any (fun c => convertFileCode off c != 0)
          = false := by
        rw [List.any_eq_false]
        intro c hc
        simp [hall c hc]
      rw [hany]
      simp
    · rw [if_pos hz]
      have hne : ¬∀ c ∈ entriesFiles recursive es, convertFileCode off c = 0 :=
        fun hall => hz ((entriesRet_zero_iff off recursive es).2 hall)
      push_neg at hne
      obtain ⟨c, hc, hcc⟩ := hne
      have hany : (entriesFiles recursive es).any (fun c => convertFileCode off c != 0)
          = true :=
        List.any_eq_true.2 ⟨c, hc, by simpa using hcc⟩
      rw [hany]
      simp
